import Mathlib

/-!
Verification of the Review Scraper pipeline.

The Python repository is a sequential browser-automation pipeline.  The browser,
the emoji library and the translation service are external collaborators; they
are embedded as explicit oracles (functions supplied as parameters), while every
algorithmic decision made by the repository's own code (loop structure, guards,
defaults, error paths) is translated faithfully from the source files.
-/

namespace ReviewScraper

/-! ## Configuration constants (config/settings.py) -/

namespace Settings

def DEFAULT_MAX_REVIEWS : Nat := 100

def SCROLL_ATTEMPTS : Nat := 15

def COOKIE_SELECTORS : List String :=
  ["button:has-text(\x27Reject all\x27)",
   "button:has-text(\x27I disagree\x27)",
   "button[aria-label*=\x27Reject\x27]",
   "button:has-text(\x27Alla avvisa\x27)",
   "div[role=\x27button\x27]:has-text(\x27Reject\x27)",
   "[data-value=\x270\x27]"]

end Settings

/-! ## Scroll-to-load (scraper/google_maps.py, GoogleMapsScraper.scroll_to_load_reviews)

The page is embedded as an observation oracle `obs : Nat → Option Nat`:
`obs i` is the review-element count observed by scroll attempt `i`, with `none`
meaning the attempt raised an exception (the `except` branch, which continues
the loop).  The function returns the pair
(number of loop iterations performed, value of `previous_count` at return). -/

def scrollAux (obs : Nat → Option Nat) : Nat → Nat → Nat → Nat × Nat
  | 0, attempt, prev => (attempt, prev)
  | fuel + 1, attempt, prev =>
    match obs attempt with
    | none => scrollAux obs fuel (attempt + 1) prev
    | some c =>
      if c = prev then
        if 5 < attempt then (attempt + 1, prev)
        else scrollAux obs fuel (attempt + 1) prev
      else scrollAux obs fuel (attempt + 1) c

def scroll_to_load_reviews (obs : Nat → Option Nat) (maxAttempts : Nat) : Nat × Nat :=
  scrollAux obs maxAttempts 0 0

/-- `max_attempts = None` defaults to `settings.SCROLL_ATTEMPTS`. -/
def scroll_to_load_reviews_default (obs : Nat → Option Nat) : Nat × Nat :=
  scroll_to_load_reviews obs Settings.SCROLL_ATTEMPTS

/-- The last successfully observed count among attempts `0 .. n-1`
(0 when no observation succeeded), mirroring how `previous_count` tracks
the most recent observation. -/
def lastObserved (obs : Nat → Option Nat) : Nat → Nat
  | 0 => 0
  | n + 1 =>
    match obs n with
    | some c => c
    | none => lastObserved obs n

theorem scrollAux_bounds (obs : Nat → Option Nat) :
    ∀ fuel attempt prev, attempt ≤ (scrollAux obs fuel attempt prev).1 ∧
      (scrollAux obs fuel attempt prev).1 ≤ attempt + fuel := by
  intro fuel
  induction fuel with
  | zero => intro attempt prev; simp [scrollAux]
  | succ fuel ih =>
    intro attempt prev
    cases hobs : obs attempt with
    | none =>
      have h := ih (attempt + 1) prev
      simp only [scrollAux, hobs]
      exact ⟨by omega, by omega⟩
    | some c =>
      by_cases hc : c = prev
      · by_cases h5 : 5 < attempt
        · simp only [scrollAux, hobs, if_pos hc, if_pos h5]
          exact ⟨by omega, by omega⟩
        · have h := ih (attempt + 1) prev
          simp only [scrollAux, hobs, if_pos hc, if_neg h5]
          exact ⟨by omega, by omega⟩
      · have h := ih (attempt + 1) c
        simp only [scrollAux, hobs, if_neg hc]
        exact ⟨by omega, by omega⟩

theorem scrollAux_stop (obs : Nat → Option Nat) :
    ∀ fuel attempt prev,
      (scrollAux obs fuel attempt prev).1 = attempt + fuel ∨
        (7 ≤ (scrollAux obs fuel attempt prev).1 ∧
          obs ((scrollAux obs fuel attempt prev).1 - 1) =
            some (scrollAux obs fuel attempt prev).2) := by
  intro fuel
  induction fuel with
  | zero => intro attempt prev; simp [scrollAux]
  | succ fuel ih =>
    intro attempt prev
    cases hobs : obs attempt with
    | none =>
      simp only [scrollAux, hobs]
      rcases ih (attempt + 1) prev with h | h
      · left; omega
      · right; exact h
    | some c =>
      by_cases hc : c = prev
      · by_cases h5 : 5 < attempt
        · simp only [scrollAux, hobs, if_pos hc, if_pos h5]
          right
          refine ⟨by omega, ?_⟩
          simpa [hc] using hobs
        · simp only [scrollAux, hobs, if_pos hc, if_neg h5]
          rcases ih (attempt + 1) prev with h | h
          · left; omega
          · right; exact h
      · simp only [scrollAux, hobs, if_neg hc]
        rcases ih (attempt + 1) c with h | h
        · left; omega
        · right; exact h

theorem scrollAux_last (obs : Nat → Option Nat) :
    ∀ fuel attempt prev, prev = lastObserved obs attempt →
      (scrollAux obs fuel attempt prev).2 =
        lastObserved obs (scrollAux obs fuel attempt prev).1 := by
  intro fuel
  induction fuel with
  | zero => intro attempt prev h; simpa [scrollAux] using h
  | succ fuel ih =>
    intro attempt prev h
    cases hobs : obs attempt with
    | none =>
      simp only [scrollAux, hobs]
      apply ih (attempt + 1) prev
      simp [lastObserved, hobs, h]
    | some c =>
      by_cases hc : c = prev
      · by_cases h5 : 5 < attempt
        · simp only [scrollAux, hobs, if_pos hc, if_pos h5]
          simp [lastObserved, hobs, hc]
        · simp only [scrollAux, hobs, if_pos hc, if_neg h5]
          apply ih (attempt + 1) prev
          simp [lastObserved, hobs, hc]
      · simp only [scrollAux, hobs, if_neg hc]
        apply ih (attempt + 1) c
        simp [lastObserved, hobs]

/-- C1 (amended): the scroll loop stops early only when an attempt whose index
exceeds 5 observes the same count as the stored previous count (so the loop has
then performed at least 7 iterations and the last observation equals the
returned value); otherwise it runs the full attempt budget.  In every case the
returned value is the most recently observed review-element count (0 when no
observation succeeded). -/
theorem scroll_stop_characterization (obs : Nat → Option Nat) (maxAttempts : Nat) :
    ((scroll_to_load_reviews obs maxAttempts).1 = maxAttempts ∨
      (7 ≤ (scroll_to_load_reviews obs maxAttempts).1 ∧
        obs ((scroll_to_load_reviews obs maxAttempts).1 - 1) =
          some (scroll_to_load_reviews obs maxAttempts).2)) ∧
    (scroll_to_load_reviews obs maxAttempts).2 =
      lastObserved obs (scroll_to_load_reviews obs maxAttempts).1 := by
  constructor
  · have h := scrollAux_stop obs maxAttempts 0 0
    simpa [scroll_to_load_reviews] using h
  · have h := scrollAux_last obs maxAttempts 0 0 (by simp [lastObserved])
    simpa [scroll_to_load_reviews] using h

/-- C1 (counterexample): with a page whose review-element count is the constant
3, scroll attempt 1 already observes the same count as attempt 0, yet the loop
performs 7 scroll iterations rather than stopping after attempt 1: the first
stall does not stop the scrolling. -/
theorem scroll_first_stall_does_not_stop :
    (fun _ : Nat => some 3) 1 = (fun _ : Nat => some 3) 0 ∧
    (scroll_to_load_reviews (fun _ => some 3) 15).1 = 7 ∧
    (scroll_to_load_reviews (fun _ => some 3) 15).1 ≠ 2 := by
  refine ⟨rfl, ?_, ?_⟩ <;> decide

/-- C5: the scroll stage always terminates after at most `max_attempts` loop
iterations (hence at most that many scroll gestures), and the default budget is
`settings.SCROLL_ATTEMPTS = 15`.  Termination itself is witnessed by
`scroll_to_load_reviews` being a total function. -/
theorem scroll_attempt_budget (obs : Nat → Option Nat) (maxAttempts : Nat) :
    (scroll_to_load_reviews obs maxAttempts).1 ≤ maxAttempts ∧
    scroll_to_load_reviews_default obs =
      scroll_to_load_reviews obs Settings.SCROLL_ATTEMPTS ∧
    Settings.SCROLL_ATTEMPTS = 15 := by
  refine ⟨?_, rfl, rfl⟩
  have h := (scrollAux_bounds obs maxAttempts 0 0).2
  simpa [scroll_to_load_reviews] using h

/-! ## Text processing (utils/text_processor.py)

`emoji.replace_emoji` is an external library; it is embedded as a character
predicate `isEmoji` supplied as an oracle, and removing emojis is filtering out
the characters it accepts.  Python's `\s` / `str.strip()` whitespace class is
embedded as `pyIsSpace` (the ASCII whitespace characters plus NEL and NBSP).
`re.sub(r"\s+", " ", text)` replaces every maximal whitespace run by a single
space, embedded as the structurally recursive `collapseAux` which tracks
whether the previous character belonged to a whitespace run.  `pyIsSpace` is
the complete class accepted by CPython's `str.isspace()` (which is the class
of both `\s` on `str` patterns and `str.strip()`): U+0009-U+000D,
U+001C-U+001F, U+0020, U+0085, U+00A0, U+1680, U+2000-U+200A, U+2028, U+2029,
U+202F, U+205F and U+3000. -/

def pyIsSpace (c : Char) : Bool :=
  (9 ≤ c.val && c.val ≤ 13) || (28 ≤ c.val && c.val ≤ 32) ||
    c.val = 133 || c.val = 160 || c.val = 5760 ||
    (8192 ≤ c.val && c.val ≤ 8202) || c.val = 8232 || c.val = 8233 ||
    c.val = 8239 || c.val = 8287 || c.val = 12288

def collapseAux : Bool → List Char → List Char
  | _, [] => []
  | prevSp, c :: rest =>
    if pyIsSpace c then
      if prevSp then collapseAux true rest
      else ' ' :: collapseAux true rest
    else c :: collapseAux false rest

def collapseWs (l : List Char) : List Char := collapseAux false l

/-- Python `str.strip()`: drop whitespace from both ends. -/
def stripWs (l : List Char) : List Char :=
  (((l.dropWhile pyIsSpace).reverse.dropWhile pyIsSpace)).reverse

/-- The maximal non-whitespace runs (words) of a character list, in order;
the first argument accumulates the reversed prefix of the word being read. -/
def wordsAux : List Char → List Char → List (List Char)
  | acc, [] => if acc = [] then [] else [acc.reverse]
  | acc, c :: rest =>
    if pyIsSpace c then
      if acc = [] then wordsAux [] rest
      else acc.reverse :: wordsAux [] rest
    else wordsAux (c :: acc) rest

def toWords (l : List Char) : List (List Char) := wordsAux [] l

/-- `TextProcessor.clean_text`: empty in, empty out; otherwise remove emojis,
then collapse whitespace runs to single spaces and strip both ends. -/
def clean_text (isEmoji : Char → Bool) (text : String) : String :=
  if text = "" then ""
  else String.mk (stripWs (collapseWs (text.toList.filter (fun c => !isEmoji c))))

/-- Configuration and external-collaborator oracles of a `TextProcessor`
instance: the construction flags, the emoji predicate, and the translation
service (its result on a given input, and whether the call raises). -/
structure TPConfig where
  enable_translation : Bool
  target_language : String
  isEmoji : Char → Bool
  translatorResult : String → String
  translatorRaises : String → Bool

/-- `TextProcessor.translate_text`, returning
(translated text, was_translated, original_language). -/
def translate_text (cfg : TPConfig) (text : String) : String × Bool × Option String :=
  if !cfg.enable_translation || text = "" || String.mk (stripWs text.toList) = "" ||
      text = "No review text" then
    (text, false, none)
  else if cfg.translatorRaises text then (text, false, none)
  else
    let translated := cfg.translatorResult text
    if translated ≠ text then (translated, true, some ("auto"))
    else (text, false, some cfg.target_language)

/-- `TextProcessor.process_text`: clean, then translate when enabled. -/
def process_text (cfg : TPConfig) (text : String) : String × Bool × Option String :=
  let cleaned := clean_text cfg.isEmoji text
  if cfg.enable_translation then translate_text cfg cleaned
  else (cleaned, false, none)

/-- Adjacent characters are not both whitespace: the relation whose `Chain'`
states that whitespace was collapsed to single separators. -/
def noRun (a b : Char) : Prop := pyIsSpace a = false ∨ pyIsSpace b = false

theorem collapseAux_cons_sp_true (a : Char) (t : List Char) (ha : pyIsSpace a = true) :
    collapseAux true (a :: t) = collapseAux true t := by
  simp [collapseAux, ha]

theorem collapseAux_cons_sp_false (a : Char) (t : List Char) (ha : pyIsSpace a = true) :
    collapseAux false (a :: t) = ' ' :: collapseAux true t := by
  simp [collapseAux, ha]

theorem collapseAux_cons_nsp (a : Char) (t : List Char) (b : Bool) (ha : pyIsSpace a = false) :
    collapseAux b (a :: t) = a :: collapseAux false t := by
  simp [collapseAux, ha]

theorem pyIsSpace_space : pyIsSpace ' ' = true := by decide

theorem collapseAux_mem : ∀ (l : List Char) (b : Bool) (c : Char),
    c ∈ collapseAux b l → c = ' ' ∨ c ∈ l := by
  intro l
  induction l with
  | nil => intro b c h; simp [collapseAux] at h
  | cons a t ih =>
    intro b c h
    by_cases ha : pyIsSpace a
    · cases b with
      | true =>
        rw [collapseAux_cons_sp_true a t ha] at h
        rcases ih true c h with h1 | h1
        · exact Or.inl h1
        · exact Or.inr (List.mem_cons_of_mem a h1)
      | false =>
        rw [collapseAux_cons_sp_false a t ha] at h
        rcases List.mem_cons.mp h with h1 | h1
        · exact Or.inl h1
        · rcases ih true c h1 with h2 | h2
          · exact Or.inl h2
          · exact Or.inr (List.mem_cons_of_mem a h2)
    · rw [collapseAux_cons_nsp a t b (by simpa using ha)] at h
      rcases List.mem_cons.mp h with h1 | h1
      · exact Or.inr (by simp [h1])
      · rcases ih false c h1 with h2 | h2
        · exact Or.inl h2
        · exact Or.inr (List.mem_cons_of_mem a h2)

theorem collapseAux_space_char : ∀ (l : List Char) (b : Bool) (c : Char),
    c ∈ collapseAux b l → pyIsSpace c = true → c = ' ' := by
  intro l
  induction l with
  | nil => intro b c h; simp [collapseAux] at h
  | cons a t ih =>
    intro b c h hsp
    by_cases ha : pyIsSpace a
    · cases b with
      | true =>
        rw [collapseAux_cons_sp_true a t ha] at h
        exact ih true c h hsp
      | false =>
        rw [collapseAux_cons_sp_false a t ha] at h
        rcases List.mem_cons.mp h with h1 | h1
        · exact h1
        · exact ih true c h1 hsp
    · rw [collapseAux_cons_nsp a t b (by simpa using ha)] at h
      rcases List.mem_cons.mp h with h1 | h1
      · rw [h1] at hsp; exact absurd hsp ha
      · exact ih false c h1 hsp

theorem collapseAux_true_head : ∀ (l : List Char) (c : Char) (t : List Char),
    collapseAux true l = c :: t → pyIsSpace c = false := by
  intro l
  induction l with
  | nil => intro c t h; simp [collapseAux] at h
  | cons a r ih =>
    intro c t h
    by_cases ha : pyIsSpace a
    · rw [collapseAux_cons_sp_true a r ha] at h
      exact ih c t h
    · rw [collapseAux_cons_nsp a r true (by simpa using ha)] at h
      rw [List.cons.injEq] at h
      rw [← h.1]
      simpa using ha

theorem collapseAux_chain : ∀ (l : List Char) (b : Bool),
    List.Chain' noRun (collapseAux b l) := by
  intro l
  induction l with
  | nil => intro b; simp [collapseAux]
  | cons a t ih =>
    intro b
    by_cases ha : pyIsSpace a
    · cases b with
      | true =>
        rw [collapseAux_cons_sp_true a t ha]
        exact ih true
      | false =>
        rw [collapseAux_cons_sp_false a t ha]
        refine List.Chain'.cons' (ih true) ?_
        intro y hy
        cases hh : collapseAux true t with
        | nil => rw [hh] at hy; simp at hy
        | cons c r =>
          rw [hh] at hy
          simp only [List.head?_cons, Option.mem_def, Option.some.injEq] at hy
          right
          rw [← hy]
          exact collapseAux_true_head t c r hh
    · rw [collapseAux_cons_nsp a t b (by simpa using ha)]
      refine List.Chain'.cons' (ih false) ?_
      intro y hy
      left
      simpa using ha

theorem collapseAux_filter : ∀ (l : List Char) (b : Bool),
    (collapseAux b l).filter (fun c => !pyIsSpace c) =
      l.filter (fun c => !pyIsSpace c) := by
  intro l
  induction l with
  | nil => intro b; simp [collapseAux]
  | cons a t ih =>
    intro b
    by_cases ha : pyIsSpace a
    · cases b with
      | true =>
        rw [collapseAux_cons_sp_true a t ha, ih true, List.filter_cons]
        simp [ha]
      | false =>
        rw [collapseAux_cons_sp_false a t ha, List.filter_cons, List.filter_cons]
        simp [ha, pyIsSpace_space, ih true]
    · rw [collapseAux_cons_nsp a t b (by simpa using ha), List.filter_cons, List.filter_cons]
      simp [ha, ih false]

theorem dropWhile_filter_eq (p : Char → Bool) : ∀ (l : List Char),
    (l.dropWhile p).filter (fun c => !p c) = l.filter (fun c => !p c) := by
  intro l
  induction l with
  | nil => simp
  | cons a t ih =>
    by_cases ha : p a
    · rw [List.dropWhile_cons_of_pos (by simpa using ha), ih, List.filter_cons]
      simp [ha]
    · rw [List.dropWhile_cons_of_neg (by simpa using ha)]

theorem stripWs_filter (l : List Char) :
    (stripWs l).filter (fun c => !pyIsSpace c) = l.filter (fun c => !pyIsSpace c) := by
  unfold stripWs
  rw [List.filter_reverse, dropWhile_filter_eq, List.filter_reverse,
    List.reverse_reverse, dropWhile_filter_eq]

theorem dropWhile_head_false (p : Char → Bool) : ∀ (l : List Char) (c : Char) (t : List Char),
    l.dropWhile p = c :: t → p c = false := by
  intro l
  induction l with
  | nil => intro c t h; simp at h
  | cons a r ih =>
    intro c t h
    by_cases ha : p a
    · rw [List.dropWhile_cons_of_pos (by simpa using ha)] at h
      exact ih c t h
    · rw [List.dropWhile_cons_of_neg (by simpa using ha)] at h
      rw [List.cons.injEq] at h
      rw [← h.1]
      simpa using ha

theorem dropWhile_subset (p : Char → Bool) (l : List Char) :
    ∀ c, c ∈ l.dropWhile p → c ∈ l :=
  fun _ hc => (List.IsSuffix.sublist (List.dropWhile_suffix p)).subset hc

theorem stripWs_subset (l : List Char) : ∀ c, c ∈ stripWs l → c ∈ l := by
  intro c hc
  unfold stripWs at hc
  rw [List.mem_reverse] at hc
  have h1 := dropWhile_subset pyIsSpace _ c hc
  rw [List.mem_reverse] at h1
  exact dropWhile_subset pyIsSpace l c h1

theorem noRun_flip (a b : Char) : noRun a b → noRun b a := Or.symm

theorem chain'_stripWs {l : List Char} (h : List.Chain' noRun l) :
    List.Chain' noRun (stripWs l) := by
  unfold stripWs
  have h1 : List.Chain' noRun (l.dropWhile pyIsSpace) :=
    h.suffix (List.dropWhile_suffix pyIsSpace)
  have h2 : List.Chain' (flip noRun) (l.dropWhile pyIsSpace) :=
    h1.imp (fun a b hab => noRun_flip a b hab)
  have h3 : List.Chain' noRun (l.dropWhile pyIsSpace).reverse :=
    List.chain'_reverse.mpr h2
  have h4 : List.Chain' noRun ((l.dropWhile pyIsSpace).reverse.dropWhile pyIsSpace) :=
    h3.suffix (List.dropWhile_suffix pyIsSpace)
  have h5 : List.Chain' (flip noRun) ((l.dropWhile pyIsSpace).reverse.dropWhile pyIsSpace) :=
    h4.imp (fun a b hab => noRun_flip a b hab)
  exact List.chain'_reverse.mpr h5

theorem getLast?_dropWhile (p : Char → Bool) : ∀ (l : List Char) (c : Char),
    (l.dropWhile p).getLast? = some c → l.getLast? = some c := by
  intro l
  induction l with
  | nil => intro c h; simp at h
  | cons a r ih =>
    intro c h
    by_cases ha : p a
    · rw [List.dropWhile_cons_of_pos (by simpa using ha)] at h
      cases r with
      | nil => simp at h
      | cons b s =>
        rw [List.getLast?_cons_cons]
        exact ih c h
    · rw [List.dropWhile_cons_of_neg (by simpa using ha)] at h
      exact h


theorem stripWs_head (l : List Char) :
    ∀ c ∈ (stripWs l).head?, pyIsSpace c = false := by
  intro c hc
  unfold stripWs at hc
  rw [List.head?_reverse] at hc
  simp only [Option.mem_def] at hc
  have h1 := getLast?_dropWhile pyIsSpace _ c hc
  rw [List.getLast?_reverse] at h1
  cases hd : (l.dropWhile pyIsSpace) with
  | nil => rw [hd] at h1; simp at h1
  | cons a t =>
    rw [hd] at h1
    simp only [List.head?_cons, Option.some.injEq] at h1
    rw [← h1]
    exact dropWhile_head_false pyIsSpace l a t hd

theorem stripWs_last (l : List Char) :
    ∀ c ∈ (stripWs l).getLast?, pyIsSpace c = false := by
  intro c hc
  unfold stripWs at hc
  rw [List.getLast?_reverse] at hc
  simp only [Option.mem_def] at hc
  cases hd : ((l.dropWhile pyIsSpace).reverse.dropWhile pyIsSpace) with
  | nil => rw [hd] at hc; simp at hc
  | cons a t =>
    rw [hd] at hc
    simp only [List.head?_cons, Option.some.injEq] at hc
    rw [← hc]
    exact dropWhile_head_false pyIsSpace _ a t hd

theorem intercalate_cons_cons (s a b : List Char) (t : List (List Char)) :
    List.intercalate s (a :: b :: t) = a ++ s ++ List.intercalate s (b :: t) := by
  simp [List.intercalate, List.intersperse_cons_cons]

theorem wordsAux_collapseAux : ∀ l : List Char,
    (∀ acc, wordsAux acc (collapseAux false l) = wordsAux acc l) ∧
    wordsAux [] (collapseAux true l) = wordsAux [] l := by
  intro l
  induction l with
  | nil => exact ⟨fun acc => rfl, rfl⟩
  | cons c rest ih =>
    by_cases hc : pyIsSpace c
    · constructor
      · intro acc
        rw [collapseAux_cons_sp_false c rest hc]
        simp [wordsAux, hc, pyIsSpace_space, ih.2]
      · rw [collapseAux_cons_sp_true c rest hc]
        simp [wordsAux, hc, ih.2]
    · constructor
      · intro acc
        rw [collapseAux_cons_nsp c rest false (by simpa using hc)]
        simp [wordsAux, hc, ih.1]
      · rw [collapseAux_cons_nsp c rest true (by simpa using hc)]
        simp [wordsAux, hc, ih.1]

theorem wordsAux_dropWhile : ∀ l : List Char,
    wordsAux [] (l.dropWhile pyIsSpace) = wordsAux [] l := by
  intro l
  induction l with
  | nil => rfl
  | cons c rest ih =>
    by_cases hc : pyIsSpace c
    · rw [List.dropWhile_cons_of_pos (by simpa using hc), ih]
      simp [wordsAux, hc]
    · rw [List.dropWhile_cons_of_neg (by simpa using hc)]

theorem wordsAux_all_space : ∀ s : List Char, (∀ c ∈ s, pyIsSpace c = true) →
    ∀ acc, wordsAux acc s = wordsAux acc [] := by
  intro s
  induction s with
  | nil => intro _ acc; rfl
  | cons c s2 ih =>
    intro h acc
    have hc : pyIsSpace c = true := h c (by simp)
    have hs2 : ∀ c ∈ s2, pyIsSpace c = true := fun d hd => h d (by simp [hd])
    have h1 : wordsAux [] s2 = [] := by rw [ih hs2 []]; rfl
    simp [wordsAux, hc, h1]

theorem wordsAux_append_space (s : List Char) (hs : ∀ c ∈ s, pyIsSpace c = true) :
    ∀ (m acc : List Char), wordsAux acc (m ++ s) = wordsAux acc m := by
  intro m
  induction m with
  | nil =>
    intro acc
    simpa using wordsAux_all_space s hs acc
  | cons c m2 ih =>
    intro acc
    by_cases hc : pyIsSpace c
    · simp [wordsAux, hc, ih]
    · simp [wordsAux, hc, ih]

theorem wordsAux_stripWs (m : List Char) :
    wordsAux [] (stripWs m) = wordsAux [] m := by
  have hd : wordsAux [] (m.dropWhile pyIsSpace) = wordsAux [] m := wordsAux_dropWhile m
  have hsplit : m.dropWhile pyIsSpace =
      stripWs m ++ ((m.dropWhile pyIsSpace).reverse.takeWhile pyIsSpace).reverse := by
    have h1 : ((m.dropWhile pyIsSpace).reverse.takeWhile pyIsSpace) ++
        ((m.dropWhile pyIsSpace).reverse.dropWhile pyIsSpace) =
        (m.dropWhile pyIsSpace).reverse := List.takeWhile_append_dropWhile ..
    have h2 := congrArg List.reverse h1
    rw [List.reverse_append, List.reverse_reverse] at h2
    unfold stripWs
    exact h2.symm
  have hsp : ∀ c ∈ ((m.dropWhile pyIsSpace).reverse.takeWhile pyIsSpace).reverse,
      pyIsSpace c = true :=
    fun c hc => List.mem_takeWhile_imp (List.mem_reverse.mp hc)
  have h3 : wordsAux [] (m.dropWhile pyIsSpace) = wordsAux [] (stripWs m) := by
    rw [hsplit]
    exact wordsAux_append_space _ hsp (stripWs m) []
  rw [← h3, hd]

theorem intercalate_reconstruct : ∀ (m acc : List Char),
    (∀ c ∈ m, pyIsSpace c = true → c = ' ') →
    List.Chain' noRun m →
    (∀ c ∈ m.getLast?, pyIsSpace c = false) →
    (∀ c ∈ m.head?, pyIsSpace c = true → acc ≠ []) →
    List.intercalate [' '] (wordsAux acc m) = acc.reverse ++ m := by
  intro m
  induction m with
  | nil =>
    intro acc _ _ _ _
    by_cases ha : acc = []
    · subst ha; rfl
    · simp [wordsAux, ha, List.intercalate]
  | cons c rest ih =>
    intro acc hsp hchain hlast hhead
    by_cases hc : pyIsSpace c
    · have hc2 : c = ' ' := hsp c (by simp) hc
      have hacc : acc ≠ [] := hhead c (by simp) hc
      cases rest with
      | nil =>
        exact absurd (hlast c (by simp)) (by simp [hc])
      | cons d t =>
        have hrel : noRun c d := (List.chain'_cons.mp hchain).1
        have hd2 : pyIsSpace d = false := by
          rcases hrel with h | h
          · exact absurd hc (by simp [h])
          · exact h
        have ihe : List.intercalate [' '] (wordsAux [] (d :: t)) = d :: t := by
          have := ih []
            (fun e he hse => hsp e (List.mem_cons_of_mem c he) hse)
            (List.chain'_cons.mp hchain).2
            (by rw [← List.getLast?_cons_cons]; exact hlast)
            (fun e he hse => by
              simp only [List.head?_cons, Option.mem_def, Option.some.injEq] at he
              rw [he] at hd2
              exact absurd hse (by simp [hd2]))
          simpa using this
        have hw : wordsAux acc (c :: d :: t) = acc.reverse :: wordsAux [] (d :: t) := by
          simp [wordsAux, hc, hacc]
        rw [hw]
        cases hws : wordsAux [] (d :: t) with
        | nil =>
          rw [hws] at ihe
          simp [List.intercalate] at ihe
        | cons w ws =>
          rw [hws] at ihe
          rw [intercalate_cons_cons, ihe, hc2]
          simp
    · have ihe : List.intercalate [' '] (wordsAux (c :: acc) rest) =
          (c :: acc).reverse ++ rest := by
        apply ih (c :: acc)
          (fun e he hse => hsp e (List.mem_cons_of_mem c he) hse)
          hchain.tail
        · intro e he
          cases rest with
          | nil => simp at he
          | cons d t =>
            rw [← List.getLast?_cons_cons] at he
            exact hlast e he
        · intro e _ _
          simp
      have hw : wordsAux acc (c :: rest) = wordsAux (c :: acc) rest := by
        simp [wordsAux, hc]
      rw [hw, ihe]
      simp

theorem toList_mk (l : List Char) : (String.mk l).toList = l := rfl

/-- C4: `clean_text` maps the empty string to the empty string; otherwise its
output contains no emoji character (for any emoji predicate that does not class
the plain space as an emoji), every whitespace character left in the output is
a single plain space with no two adjacent whitespace characters, the output
neither starts nor ends with whitespace, the non-whitespace characters are
exactly those of the input after emoji removal, in order, and the output is
exactly the maximal non-whitespace words of the emoji-filtered input joined by
single spaces — so every maximal whitespace run was replaced by exactly one
space and the ends were stripped. -/
theorem clean_text_spec (isEmoji : Char → Bool) (text : String)
    (hsp : isEmoji ' ' = false) :
    (text = "" → clean_text isEmoji text = "") ∧
    (∀ c ∈ (clean_text isEmoji text).toList, isEmoji c = false) ∧
    (∀ c ∈ (clean_text isEmoji text).toList, pyIsSpace c = true → c = ' ') ∧
    List.Chain' noRun (clean_text isEmoji text).toList ∧
    (∀ c ∈ (clean_text isEmoji text).toList.head?, pyIsSpace c = false) ∧
    (∀ c ∈ (clean_text isEmoji text).toList.getLast?, pyIsSpace c = false) ∧
    (clean_text isEmoji text).toList.filter (fun c => !pyIsSpace c) =
      (text.toList.filter (fun c => !isEmoji c)).filter (fun c => !pyIsSpace c) ∧
    (clean_text isEmoji text).toList =
      List.intercalate [' '] (toWords (text.toList.filter (fun c => !isEmoji c))) := by
  by_cases ht : text = ""
  · subst ht
    refine ⟨fun _ => rfl, ?_, ?_, ?_, ?_, ?_, ?_, ?_⟩ <;>
      simp [clean_text, toWords, wordsAux, List.intercalate]
  · have hclean : clean_text isEmoji text =
        String.mk (stripWs (collapseWs (text.toList.filter (fun c => !isEmoji c)))) := by
      simp [clean_text, ht]
    have htl : (clean_text isEmoji text).toList =
        stripWs (collapseAux false (text.toList.filter (fun c => !isEmoji c))) := by
      rw [hclean]
      rfl
    rw [htl]
    have hsp3 : ∀ c ∈ stripWs (collapseAux false (text.toList.filter (fun c => !isEmoji c))),
        pyIsSpace c = true → c = ' ' :=
      fun c hc => collapseAux_space_char _ false c (stripWs_subset _ c hc)
    have hch : List.Chain' noRun
        (stripWs (collapseAux false (text.toList.filter (fun c => !isEmoji c)))) :=
      chain'_stripWs (collapseAux_chain _ false)
    have hhd := stripWs_head (collapseAux false (text.toList.filter (fun c => !isEmoji c)))
    have hlt := stripWs_last (collapseAux false (text.toList.filter (fun c => !isEmoji c)))
    have hwords : wordsAux []
        (stripWs (collapseAux false (text.toList.filter (fun c => !isEmoji c)))) =
        wordsAux [] (text.toList.filter (fun c => !isEmoji c)) := by
      rw [wordsAux_stripWs]
      exact (wordsAux_collapseAux _).1 []
    have hinter : stripWs (collapseAux false (text.toList.filter (fun c => !isEmoji c))) =
        List.intercalate [' '] (toWords (text.toList.filter (fun c => !isEmoji c))) := by
      unfold toWords
      rw [← hwords]
      have hrec := intercalate_reconstruct
        (stripWs (collapseAux false (text.toList.filter (fun c => !isEmoji c)))) []
        hsp3 hch hlt (fun c hc hspc => absurd hspc (by simp [hhd c hc]))
      simpa using hrec.symm
    refine ⟨fun h => absurd h ht, ?_, hsp3, hch, hhd, hlt, ?_, hinter⟩
    · intro c hc
      have h1 := stripWs_subset _ c hc
      rcases collapseAux_mem _ false c h1 with h2 | h2
      · rw [h2]; exact hsp
      · have h3 := List.mem_filter.mp h2
        simpa using h3.2
    · rw [stripWs_filter, collapseAux_filter]

/-- Emoji predicate used by the witness: characters at or above U+1F300. -/
def emojiOrd (c : Char) : Bool := decide (127744 ≤ c.val.toNat)

theorem clean_text_spec_witness :
    emojiOrd ' ' = false ∧
    (clean_text emojiOrd (" a  b ")).toList =
      List.intercalate [' '] (toWords ((" a  b ").toList.filter (fun c => !emojiOrd c))) :=
  ⟨by decide, (clean_text_spec emojiOrd (" a  b ") (by decide)).2.2.2.2.2.2.2⟩

/-! ## Data model (models/review.py)

`datetime` values are embedded as opaque `Nat` timestamps; `isoformat` is the
external serialisation of such a timestamp.  `__post_init__` defaults a missing
`scraped_at` to the current time, so constructors take the current time `now`
explicitly. -/

def isoformat (t : Nat) : String := toString t

structure Review where
  reviewer : String
  rating : String
  review_text : String
  business_name : Option String
  scraped_at : Option Nat
  translated : Bool
  original_language : Option String
deriving DecidableEq

/-- The dictionary produced by `Review.to_dict` and consumed by
`Review.from_dict`.  Each field is `none` when the key is absent (or, for the
keys read with plain `data.get(key)`, when the stored value is Python `None`,
which `dict.get` treats the same way for those keys). -/
structure ReviewDict where
  Reviewer : Option String
  Rating : Option String
  Review : Option String
  Business : Option String
  Scraped_At : Option String
  Translated : Option Bool
  Original_Language : Option String
deriving DecidableEq

def Review.to_dict (r : Review) : ReviewDict :=
  { Reviewer := some r.reviewer
    Rating := some r.rating
    Review := some r.review_text
    Business := r.business_name
    Scraped_At := r.scraped_at.map isoformat
    Translated := some r.translated
    Original_Language := r.original_language }

/-- `Review.from_dict`: reads the keyed values with the source's defaults and
does not pass `scraped_at`, so `__post_init__` re-defaults it to the current
time `now`. -/
def Review.from_dict (data : ReviewDict) (now : Nat) : Review :=
  { reviewer := data.Reviewer.getD ("Unknown")
    rating := data.Rating.getD ("No rating")
    review_text := data.Review.getD ("No review text")
    business_name := data.Business
    scraped_at := some now
    translated := data.Translated.getD false
    original_language := data.Original_Language }

structure ScrapingResult where
  business_name : String
  reviews : List Review
  total_found : Nat
  total_extracted : Nat
  errors : List String
  scraped_at : Nat
deriving DecidableEq

/-- `ScrapingResult.success_rate`; Python float arithmetic is embedded in `ℚ`. -/
def ScrapingResult.success_rate (r : ScrapingResult) : ℚ :=
  if r.total_found = 0 then 0
  else ((r.total_extracted : ℚ) / (r.total_found : ℚ)) * 100

/-- C9: `success_rate` returns 0 when `total_found = 0` and
`(total_extracted / total_found) * 100` otherwise, and in the dividing branch
the divisor is provably nonzero. -/
theorem success_rate_guard (r : ScrapingResult) :
    (r.total_found = 0 → r.success_rate = 0) ∧
    (r.total_found ≠ 0 →
      ((r.total_found : ℚ) ≠ 0 ∧
        r.success_rate = ((r.total_extracted : ℚ) / (r.total_found : ℚ)) * 100)) := by
  constructor
  · intro h
    simp [ScrapingResult.success_rate, h]
  · intro h
    refine ⟨by exact_mod_cast h, ?_⟩
    simp [ScrapingResult.success_rate, h]

theorem success_rate_guard_witness :
    ScrapingResult.success_rate
      { business_name := "b", reviews := [], total_found := 0,
        total_extracted := 0, errors := [], scraped_at := 0 } = 0 :=
  (success_rate_guard _).1 rfl

/-- C10: the `to_dict`/`from_dict` round trip restores the reviewer, rating,
review text, business name, translated flag and original language, while the
`scraped_at` timestamp is not restored: it is re-defaulted to the current
time. -/
theorem review_dict_round_trip (r : Review) (now : Nat) :
    (Review.from_dict (Review.to_dict r) now).reviewer = r.reviewer ∧
    (Review.from_dict (Review.to_dict r) now).rating = r.rating ∧
    (Review.from_dict (Review.to_dict r) now).review_text = r.review_text ∧
    (Review.from_dict (Review.to_dict r) now).business_name = r.business_name ∧
    (Review.from_dict (Review.to_dict r) now).translated = r.translated ∧
    (Review.from_dict (Review.to_dict r) now).original_language = r.original_language ∧
    (Review.from_dict (Review.to_dict r) now).scraped_at = some now := by
  refine ⟨rfl, rfl, rfl, rfl, rfl, rfl, rfl⟩

/-! ## Review extraction (scraper/review_extractor.py)

A review element is embedded by the observations the extractor makes of it:
whether some locator call in `extract_single_review` raises (its `except`
branch returns `None`), and for each sub-element (reviewer name, rating,
review text) `none` when the sub-element count is 0, otherwise the value that
`inner_text` / `get_attribute` yields — where `get_attribute` itself may give
Python `None`, hence the nested option for the rating. -/

structure ReviewElement where
  raises : Bool
  reviewer : Option String
  rating : Option (Option String)
  review_text : Option String
deriving DecidableEq

/-- `ReviewExtractor.extract_single_review`.  The rating goes through Python's
`rating or "No rating"`, which also replaces a `None` or empty-string
attribute; the reviewer and the review text go through `process_text`. -/
def extract_single_review (cfg : TPConfig) (element : ReviewElement)
    (business_name : String) (now : Nat) : Option Review :=
  if element.raises then none
  else
    let reviewer := element.reviewer.getD ("Unknown")
    let ratingVal : Option String :=
      match element.rating with
      | none => some ("No rating")
      | some a => a
    let rating : String :=
      match ratingVal with
      | none => "No rating"
      | some s => if s = "" then "No rating" else s
    let pr := process_text cfg reviewer
    let pt := process_text cfg (element.review_text.getD ("No review text"))
    some { reviewer := pr.1, rating := rating, review_text := pt.1,
           business_name := some business_name, scraped_at := some now,
           translated := pt.2.1, original_language := pt.2.2 }

/-- The extraction loop of `extract_all_reviews`: collects successfully
extracted reviews in order and records an error message for each failed
element (`i` is the running element index used in the message). -/
def extractLoop (cfg : TPConfig) (business_name : String) (now : Nat) :
    List ReviewElement → Nat → List Review × List String
  | [], _ => ([], [])
  | e :: rest, i =>
    let tail := extractLoop cfg business_name now rest (i + 1)
    match extract_single_review cfg e business_name now with
    | some r => (r :: tail.1, tail.2)
    | none => (tail.1, ("Failed to extract review " ++ toString (i + 1)) :: tail.2)

/-- `ReviewExtractor.extract_all_reviews`.  `countRaises` is the message of an
exception raised by the initial element lookup (the critical-error path);
`max_reviews = None` defaults to `settings.DEFAULT_MAX_REVIEWS`.  Returns the
`ScrapingResult` together with the number of elements processed by the loop. -/
def extract_all_reviews (cfg : TPConfig) (elems : List ReviewElement)
    (countRaises : Option String) (business_name : String)
    (max_reviews : Option Nat) (now : Nat) : ScrapingResult × Nat :=
  let maxr := max_reviews.getD Settings.DEFAULT_MAX_REVIEWS
  match countRaises with
  | some msg =>
    ({ business_name := business_name, reviews := [], total_found := 0,
       total_extracted := 0,
       errors := ["Critical error during review extraction: " ++ msg],
       scraped_at := now }, 0)
  | none =>
    let total_found := elems.length
    if total_found = 0 then
      ({ business_name := business_name, reviews := [], total_found := 0,
         total_extracted := 0,
         errors := ["No review elements found on the page"],
         scraped_at := now }, 0)
    else
      let toProcess := elems.take (min total_found maxr)
      let res := extractLoop cfg business_name now toProcess 0
      ({ business_name := business_name, reviews := res.1,
         total_found := total_found, total_extracted := res.1.length,
         errors := res.2, scraped_at := now }, toProcess.length)

theorem extractLoop_length (cfg : TPConfig) (b : String) (now : Nat) :
    ∀ (l : List ReviewElement) (i : Nat),
      (extractLoop cfg b now l i).1.length ≤ l.length := by
  intro l
  induction l with
  | nil => intro i; simp [extractLoop]
  | cons e rest ih =>
    intro i
    cases h : extract_single_review cfg e b now with
    | none =>
      simp only [extractLoop, h]
      exact Nat.le_succ_of_le (ih (i + 1))
    | some r =>
      simp only [extractLoop, h, List.length_cons]
      exact Nat.succ_le_succ (ih (i + 1))

/-- C3: `extract_all_reviews` processes at most
`min total_found max_reviews` elements (with `max_reviews` defaulting to
`DEFAULT_MAX_REVIEWS = 100`), so the result holds at most `max_reviews`
reviews, and its `total_extracted` always equals the length of its review
list. -/
theorem extract_all_reviews_cap (cfg : TPConfig) (elems : List ReviewElement)
    (cr : Option String) (b : String) (mr : Option Nat) (now : Nat) :
    (extract_all_reviews cfg elems cr b mr now).2 ≤
      min elems.length (mr.getD Settings.DEFAULT_MAX_REVIEWS) ∧
    (extract_all_reviews cfg elems cr b mr now).1.reviews.length ≤
      mr.getD Settings.DEFAULT_MAX_REVIEWS ∧
    (extract_all_reviews cfg elems cr b mr now).1.total_extracted =
      (extract_all_reviews cfg elems cr b mr now).1.reviews.length ∧
    Settings.DEFAULT_MAX_REVIEWS = 100 := by
  cases cr with
  | some msg => refine ⟨?_, ?_, rfl, rfl⟩ <;> simp [extract_all_reviews]
  | none =>
    by_cases h0 : elems.length = 0
    · refine ⟨?_, ?_, ?_, rfl⟩ <;> simp [extract_all_reviews, h0]
    · have hloop := extractLoop_length cfg b now
        (elems.take (min elems.length (mr.getD Settings.DEFAULT_MAX_REVIEWS))) 0
      have htake : (elems.take (min elems.length (mr.getD Settings.DEFAULT_MAX_REVIEWS))).length =
          min (min elems.length (mr.getD Settings.DEFAULT_MAX_REVIEWS)) elems.length :=
        List.length_take ..
      have heq : extract_all_reviews cfg elems none b mr now =
          ({ business_name := b,
             reviews := (extractLoop cfg b now
               (elems.take (min elems.length (mr.getD Settings.DEFAULT_MAX_REVIEWS))) 0).1,
             total_found := elems.length,
             total_extracted := (extractLoop cfg b now
               (elems.take (min elems.length (mr.getD Settings.DEFAULT_MAX_REVIEWS))) 0).1.length,
             errors := (extractLoop cfg b now
               (elems.take (min elems.length (mr.getD Settings.DEFAULT_MAX_REVIEWS))) 0).2,
             scraped_at := now },
           (elems.take (min elems.length (mr.getD Settings.DEFAULT_MAX_REVIEWS))).length) := by
        simp only [extract_all_reviews]
        rw [if_neg h0]
      rw [heq]
      refine ⟨?_, ?_, rfl, rfl⟩
      · omega
      · exact le_trans hloop (by omega)

theorem clean_text_of_not_emoji (isEmoji : Char → Bool) (s : String)
    (h : ∀ c ∈ s.toList, isEmoji c = false) (hne : s ≠ "") :
    clean_text isEmoji s = String.mk (stripWs (collapseAux false s.toList)) := by
  unfold clean_text
  rw [if_neg hne]
  have hf : s.toList.filter (fun c => !isEmoji c) = s.toList :=
    List.filter_eq_self.mpr (fun a ha => by simp [h a ha])
  unfold collapseWs
  rw [hf]

theorem clean_text_no_review_text (isEmoji : Char → Bool)
    (h : ∀ c ∈ ("No review text").toList, isEmoji c = false) :
    clean_text isEmoji ("No review text") = "No review text" := by
  rw [clean_text_of_not_emoji isEmoji ("No review text") h (by decide)]
  decide

theorem clean_text_unknown (isEmoji : Char → Bool)
    (h : ∀ c ∈ ("Unknown").toList, isEmoji c = false) :
    clean_text isEmoji ("Unknown") = "Unknown" := by
  rw [clean_text_of_not_emoji isEmoji ("Unknown") h (by decide)]
  decide

theorem process_text_no_review_text (cfg : TPConfig)
    (h : ∀ c ∈ ("No review text").toList, cfg.isEmoji c = false) :
    process_text cfg ("No review text") = ("No review text", false, none) := by
  unfold process_text
  rw [clean_text_no_review_text cfg.isEmoji h]
  by_cases he : cfg.enable_translation
  · rw [if_pos he]
    unfold translate_text
    rw [if_pos (by simp)]
  · rw [if_neg he]

/-- C7 (amended): a review element lacking the reviewer-name, rating and
review-text sub-elements is still extracted (no failure): the rating default
`"No rating"` and the text default `"No review text"` appear verbatim in the
constructed `Review` (the text default is exempted from translation by an
explicit check and is left unchanged by cleaning), while the reviewer default
`"Unknown"` is fed through the cleaning/translation pipeline, so the
constructed reviewer is `process_text "Unknown"` — equal to `"Unknown"`
whenever translation is disabled. -/
theorem extract_single_review_defaults (cfg : TPConfig) (e : ReviewElement)
    (b : String) (now : Nat)
    (hr : e.raises = false) (h1 : e.reviewer = none) (h2 : e.rating = none)
    (h3 : e.review_text = none)
    (hu : ∀ c ∈ ("Unknown").toList, cfg.isEmoji c = false)
    (hn : ∀ c ∈ ("No review text").toList, cfg.isEmoji c = false) :
    extract_single_review cfg e b now = some
      { reviewer := (process_text cfg ("Unknown")).1, rating := "No rating",
        review_text := "No review text", business_name := some b,
        scraped_at := some now, translated := false, original_language := none } ∧
    (cfg.enable_translation = false → (process_text cfg ("Unknown")).1 = "Unknown") := by
  constructor
  · unfold extract_single_review
    rw [hr, h1, h2, h3]
    simp only [Bool.false_eq_true, if_false, Option.getD_none]
    rw [process_text_no_review_text cfg hn]
    rfl
  · intro he
    unfold process_text
    rw [if_neg (by simp [he])]
    exact clean_text_unknown cfg.isEmoji hu

/-- Text-processing configuration used by the C7 witness: translation
disabled, nothing classified as an emoji. -/
def cfgPlain : TPConfig :=
  { enable_translation := false, target_language := "en",
    isEmoji := fun _ => false, translatorResult := fun s => s,
    translatorRaises := fun _ => false }

/-- A review element none of whose sub-elements is present. -/
def elemEmpty : ReviewElement :=
  { raises := false, reviewer := none, rating := none, review_text := none }

theorem extract_single_review_defaults_witness :
    extract_single_review cfgPlain elemEmpty ("Biz") 7 = some
      { reviewer := (process_text cfgPlain ("Unknown")).1, rating := "No rating",
        review_text := "No review text", business_name := some ("Biz"),
        scraped_at := some 7, translated := false, original_language := none } :=
  (extract_single_review_defaults cfgPlain elemEmpty ("Biz") 7 rfl rfl rfl rfl
    (by decide) (by decide)).1

/-- Text-processing configuration whose translator rewrites every input: an
adversarial but legitimate instance of the opaque translation collaborator. -/
def cfgTr : TPConfig :=
  { enable_translation := true, target_language := "en",
    isEmoji := fun _ => false, translatorResult := fun _ => "Okand",
    translatorRaises := fun _ => false }

/-- C7 (counterexample): with translation enabled and a translator that maps
`"Unknown"` to another word, a review element lacking all three sub-elements
produces a `Review` whose reviewer field is not the default `"Unknown"`: the
reviewer default is passed through the translation pipeline rather than being
substituted verbatim into the constructed `Review`. -/
theorem extract_single_review_reviewer_translated :
    elemEmpty.reviewer = none ∧ elemEmpty.rating = none ∧
    elemEmpty.review_text = none ∧
    (extract_single_review cfgTr elemEmpty ("Biz") 0).map Review.reviewer =
      some ("Okand") ∧
    (extract_single_review cfgTr elemEmpty ("Biz") 0).map Review.reviewer ≠
      some ("Unknown") := by
  refine ⟨rfl, rfl, rfl, ?_, ?_⟩ <;> decide

/-! ## Cookie consent (scraper/google_maps.py, handle_cookie_consent)

Each candidate selector is embedded by the outcomes of the browser calls made
for it: whether the locator/visibility check raises, whether the button is
visible, and whether clicking it raises.  A raise anywhere inside the
per-selector `try` moves on to the next selector; the method returns `True`
exactly when some selector passes the visibility check and its click
succeeds. -/

structure SelOutcome where
  checkRaises : Bool
  visible : Bool
  clickRaises : Bool
deriving DecidableEq

/-- A selector on which `handle_cookie_consent` reaches its `return True`. -/
def goodSel (o : SelOutcome) : Bool := !o.checkRaises && o.visible && !o.clickRaises

/-- The selector loop, returning the position of the selector on which the
method returns `True` (`none` when the loop falls through to `return False`). -/
def consentLoop (oc : String → SelOutcome) : List String → Option Nat
  | [] => none
  | s :: rest =>
    if goodSel (oc s) then some 0
    else (consentLoop oc rest).map (fun i => i + 1)

/-- `handle_cookie_consent`: `outerRaises` is a raise in the outer `try`
(before the loop), whose handler returns `False`. -/
def handle_cookie_consent (outerRaises : Bool) (oc : String → SelOutcome) : Bool :=
  if outerRaises then false
  else (consentLoop oc Settings.COOKIE_SELECTORS).isSome

theorem consentLoop_eq_findIdx (oc : String → SelOutcome) :
    ∀ l : List String, consentLoop oc l = l.findIdx? (fun s => goodSel (oc s)) := by
  intro l
  induction l with
  | nil => simp [consentLoop]
  | cons s rest ih =>
    by_cases h : goodSel (oc s)
    · simp [consentLoop, h, List.findIdx?_cons]
    · simp only [consentLoop, if_neg h, ih, List.findIdx?_cons]
      simp [h]

theorem consentLoop_isSome_iff (oc : String → SelOutcome) :
    ∀ l : List String,
      (consentLoop oc l).isSome = true ↔ ∃ s ∈ l, goodSel (oc s) = true := by
  intro l
  induction l with
  | nil => simp [consentLoop]
  | cons s rest ih =>
    by_cases h : goodSel (oc s)
    · simp [consentLoop, h]
    · simp [consentLoop, h, ih]

/-- C6: the consent handler tries the selectors of `COOKIE_SELECTORS` in list
order and succeeds on the first one whose checks pass (its position is
`findIdx?` of the success predicate); it returns `True` iff some selector
passes, returns `False` when no selector yields a visible button, a failing
selector just moves the loop to the next one, and an exception in the outer
body also yields `False`. -/
theorem handle_cookie_consent_first_success (oc : String → SelOutcome) :
    consentLoop oc Settings.COOKIE_SELECTORS =
      Settings.COOKIE_SELECTORS.findIdx? (fun s => goodSel (oc s)) ∧
    (handle_cookie_consent false oc = true ↔
      ∃ s ∈ Settings.COOKIE_SELECTORS, goodSel (oc s) = true) ∧
    ((∀ s ∈ Settings.COOKIE_SELECTORS, (oc s).visible = false) →
      handle_cookie_consent false oc = false) ∧
    (∀ s rest, goodSel (oc s) = false →
      consentLoop oc (s :: rest) = (consentLoop oc rest).map (fun i => i + 1)) ∧
    (∀ oc2, handle_cookie_consent true oc2 = false) := by
  refine ⟨consentLoop_eq_findIdx oc Settings.COOKIE_SELECTORS, ?_, ?_, ?_, ?_⟩
  · simpa [handle_cookie_consent] using
      consentLoop_isSome_iff oc Settings.COOKIE_SELECTORS
  · intro hvis
    simp only [handle_cookie_consent, if_neg (by simp : ¬(false = true))]
    rw [Bool.eq_false_iff]
    intro hsome
    rcases (consentLoop_isSome_iff oc Settings.COOKIE_SELECTORS).mp hsome with ⟨s, hs, hg⟩
    have := hvis s hs
    simp [goodSel, this] at hg
  · intro s rest h
    simp [consentLoop, h]
  · intro oc2
    simp [handle_cookie_consent]

/-- Selector-outcome oracle used by the witness: nothing is ever visible. -/
def ocNone : String → SelOutcome :=
  fun _ => { checkRaises := false, visible := false, clickRaises := false }

theorem handle_cookie_consent_first_success_witness :
    handle_cookie_consent false ocNone = false :=
  (handle_cookie_consent_first_success ocNone).2.2.1 (by intro s _; rfl)

/-! ## Pipeline driver (main.py, ReviewScraperApp.run)

The pipeline stages of a run are recorded as a trace of `Stage` events; the
stage outcomes and the page contents come from a `RunOracle`.  `run` raising is
impossible by construction (it is a total function): every stage outcome,
including `raised` (an exception caught by the stage's `except` handler, which
returns `False`), is mapped to a normal result. -/

inductive Stage
  | navigate
  | consent
  | search
  | reviewsTab
  | scroll
  | extract
  | exportData
deriving DecidableEq

inductive StageOutcome
  | ok
  | failed
  | raised
deriving DecidableEq

/-- The boolean a guarded stage method returns: `True` on success, `False`
both when its internal check fails and when its body raises (the `except`
handler returns `False`). -/
def stageBool : StageOutcome → Bool
  | StageOutcome.ok => true
  | _ => false

structure RunOracle where
  browserRaises : Option String
  navigate : StageOutcome
  consentOc : String → SelOutcome
  search : StageOutcome
  reviewsTab : StageOutcome
  scrollObs : Nat → Option Nat
  elems : List ReviewElement
  countRaises : Option String
  tp : TPConfig

/-- `navigate_to_maps`: `goto`, then `handle_cookie_consent` (whose boolean
result is ignored), then the URL check.  `raised` models a raise at `goto`
(before consent handling); `failed` a URL check that fails after it. -/
def navigate_to_maps (o : RunOracle) : Bool × List Stage :=
  match o.navigate with
  | StageOutcome.raised => (false, [Stage.navigate])
  | StageOutcome.failed => (false, [Stage.navigate, Stage.consent])
  | StageOutcome.ok => (true, [Stage.navigate, Stage.consent])

def search_business (o : RunOracle) : Bool := stageBool o.search

def navigate_to_reviews (o : RunOracle) : Bool := stageBool o.reviewsTab

/-- The `ScrapingResult` built by `run`'s exception handler. -/
def emptyResult (business_name msg : String) (now : Nat) : ScrapingResult :=
  { business_name := business_name, reviews := [], total_found := 0,
    total_extracted := 0, errors := [msg], scraped_at := now }

/-- `ReviewScraperApp.run`: the pipeline with its stage gating.  A failed gate
raises `Exception(msg)`, which the outer handler turns into
`emptyResult business_name msg now`. -/
def run (o : RunOracle) (business_name : String) (max_reviews : Option Nat)
    (now : Nat) : ScrapingResult × List Stage :=
  match o.browserRaises with
  | some m => (emptyResult business_name m now, [])
  | none =>
    let nav := navigate_to_maps o
    if !nav.1 then
      (emptyResult business_name ("Failed to navigate to Google Maps") now, nav.2)
    else if !(search_business o) then
      (emptyResult business_name ("Failed to search for business: " ++ business_name) now,
        nav.2 ++ [Stage.search])
    else if !(navigate_to_reviews o) then
      (emptyResult business_name ("Failed to navigate to reviews section") now,
        nav.2 ++ [Stage.search, Stage.reviewsTab])
    else
      let _loaded := scroll_to_load_reviews o.scrollObs Settings.SCROLL_ATTEMPTS
      ((extract_all_reviews o.tp o.elems o.countRaises business_name max_reviews now).1,
        nav.2 ++ [Stage.search, Stage.reviewsTab, Stage.scroll, Stage.extract])

/-- `main()`: `run`, then `save_results` (the export stage). -/
def mainTrace (o : RunOracle) (business_name : String) (max_reviews : Option Nat)
    (now : Nat) : List Stage :=
  (run o business_name max_reviews now).2 ++ [Stage.exportData]

/-- C2 (amended): on a successful run the stages execute in the order
navigate, consent (dismissed inside `navigate_to_maps`, before the search),
search, reviews tab, scroll, extract; `run()` itself performs no export — the
export stage is appended by `main()`/`save_results` after `run()` returns. -/
theorem run_stage_order (o : RunOracle) (b : String) (mr : Option Nat) (now : Nat)
    (h0 : o.browserRaises = none) (h1 : o.navigate = StageOutcome.ok)
    (h2 : o.search = StageOutcome.ok) (h3 : o.reviewsTab = StageOutcome.ok) :
    (run o b mr now).2 = [Stage.navigate, Stage.consent, Stage.search,
      Stage.reviewsTab, Stage.scroll, Stage.extract] ∧
    Stage.exportData ∉ (run o b mr now).2 ∧
    mainTrace o b mr now = (run o b mr now).2 ++ [Stage.exportData] := by
  have htrace : (run o b mr now).2 = [Stage.navigate, Stage.consent, Stage.search,
      Stage.reviewsTab, Stage.scroll, Stage.extract] := by
    simp [run, h0, navigate_to_maps, h1, search_business, h2,
      navigate_to_reviews, h3, stageBool]
  refine ⟨htrace, ?_, rfl⟩
  rw [htrace]
  decide

/-- Oracle of a fully successful run over a page with no review elements. -/
def allOkOracle : RunOracle :=
  { browserRaises := none, navigate := StageOutcome.ok,
    consentOc := fun _ => { checkRaises := false, visible := false, clickRaises := false },
    search := StageOutcome.ok, reviewsTab := StageOutcome.ok,
    scrollObs := fun _ => none, elems := [], countRaises := none,
    tp := { enable_translation := false, target_language := "en",
            isEmoji := fun _ => false, translatorResult := fun s => s,
            translatorRaises := fun _ => false } }

theorem run_stage_order_witness :
    (run allOkOracle ("Rex") none 0).2 = [Stage.navigate, Stage.consent,
      Stage.search, Stage.reviewsTab, Stage.scroll, Stage.extract] :=
  (run_stage_order allOkOracle ("Rex") none 0 rfl rfl rfl rfl).1

/-- C2 (counterexample): on a fully successful run the consent stage executes
before the search stage (inside the navigation step), and `run()`'s trace ends
without an export stage — so `run()` does not execute the claimed order
navigate, search, consent, reviews tab, scroll, extract, export. -/
theorem run_order_differs_from_claimed :
    (run allOkOracle ("Rex") none 0).2 ≠ [Stage.navigate, Stage.search,
      Stage.consent, Stage.reviewsTab, Stage.scroll, Stage.extract,
      Stage.exportData] ∧
    (run allOkOracle ("Rex") none 0).2 = [Stage.navigate, Stage.consent,
      Stage.search, Stage.reviewsTab, Stage.scroll, Stage.extract] := by
  refine ⟨?_, ?_⟩ <;> decide

/-- C8: the stage wrappers map a raised exception to `False` rather than
propagating it, `run` is total (it never raises, every oracle yields a
result), and on each failing stage gate — browser start-up raise, navigation
failure, search failure, reviews-tab failure — `run` returns a
`ScrapingResult` with no reviews, `total_found = 0`, `total_extracted = 0`,
and exactly the failure message in `errors`. -/
theorem run_error_handling (o : RunOracle) (b : String) (mr : Option Nat) (now : Nat) :
    (o.navigate = StageOutcome.raised → (navigate_to_maps o).1 = false) ∧
    stageBool StageOutcome.raised = false ∧
    (∀ oc, handle_cookie_consent true oc = false) ∧
    (∀ m, o.browserRaises = some m → (run o b mr now).1 = emptyResult b m now) ∧
    (o.browserRaises = none → (navigate_to_maps o).1 = false →
      (run o b mr now).1 = emptyResult b ("Failed to navigate to Google Maps") now) ∧
    (o.browserRaises = none → (navigate_to_maps o).1 = true →
      search_business o = false →
      (run o b mr now).1 = emptyResult b ("Failed to search for business: " ++ b) now) ∧
    (o.browserRaises = none → (navigate_to_maps o).1 = true →
      search_business o = true → navigate_to_reviews o = false →
      (run o b mr now).1 = emptyResult b ("Failed to navigate to reviews section") now) ∧
    (∀ msg, (emptyResult b msg now).reviews = [] ∧
      (emptyResult b msg now).total_found = 0 ∧
      (emptyResult b msg now).total_extracted = 0 ∧
      (emptyResult b msg now).errors = [msg]) := by
  refine ⟨?_, rfl, ?_, ?_, ?_, ?_, ?_, ?_⟩
  · intro h; simp [navigate_to_maps, h]
  · intro oc; simp [handle_cookie_consent]
  · intro m hm; simp [run, hm]
  · intro hb hnav; simp [run, hb, hnav]
  · intro hb hnav hs; simp [run, hb, hnav, hs]
  · intro hb hnav hs hr; simp [run, hb, hnav, hs, hr]
  · intro msg; exact ⟨rfl, rfl, rfl, rfl⟩

/-- Oracle whose navigation stage raises. -/
def navRaisesOracle : RunOracle :=
  { browserRaises := none, navigate := StageOutcome.raised,
    consentOc := fun _ => { checkRaises := false, visible := false, clickRaises := false },
    search := StageOutcome.ok, reviewsTab := StageOutcome.ok,
    scrollObs := fun _ => none, elems := [], countRaises := none,
    tp := { enable_translation := false, target_language := "en",
            isEmoji := fun _ => false, translatorResult := fun s => s,
            translatorRaises := fun _ => false } }

theorem run_error_handling_witness :
    (run navRaisesOracle ("Rex") none 5).1 =
      emptyResult ("Rex") ("Failed to navigate to Google Maps") 5 :=
  (run_error_handling navRaisesOracle ("Rex") none 5).2.2.2.2.1 rfl rfl

end ReviewScraper
